import Mathlib

/-!
Verification of the web-excel-repair-triage patch engine and gate checks.

This file shallowly embeds the byte-level patch engine of `triage/patcher.py`,
the recipe merge of `triage/report.py`, and two gate checks of
`triage/gate_checks.py` (stop-ship tokens, styles dxfs count), and proves or
refutes the frozen specification claims about them.

Modelling conventions:
* A byte string (`bytes` in the source) is a `List Nat`; string fields of a
  patch that the engine passes through `_encode` (UTF-8) are modelled
  post-encoding as `List Nat`.  UTF-8 encoding is injective, so string
  equality tests (the stub-sentinel check) transfer unchanged.
* A ZIP archive is, at the level the engine works with, an ordered list of
  `(entry name, decompressed bytes)` pairs; `zipfile` reading into a `dict`
  is modelled by `dictOf` (insertion order, last write wins).
* Python `bytes.find(pat, start)` returns the least index `i ≥ start` at
  which `pat` occurs; `-1` (absence) is modelled with `Option`.
* Python slice semantics for possibly-negative indices are modelled by
  `pySliceTo` / `pySliceFrom`.
* Decoded text (`_txt` in gate_checks.py, UTF-8 with errors ignored) is a
  `List Char`; gate models take the decoded text of each part as input.
-/

namespace Triage

/-- Bytes at which a pattern occurs: `pat` occurs in `data` at index `i`. -/
def matchesAt (data pat : List Nat) (i : Nat) : Bool :=
  decide ((data.drop i).take pat.length = pat)

/-- All indices at which `pat` occurs in `data`, in increasing order
(overlapping occurrences included, as successive `bytes.find` calls see them). -/
def occList (data pat : List Nat) : List Nat :=
  (List.range (data.length + 1)).filter (fun i => matchesAt data pat i)

/-- Model of Python `data.find(pat, start)`: least occurrence index `≥ start`,
`none` when the source returns `-1`. -/
def pyFind (data pat : List Nat) (start : Nat) : Option Nat :=
  (occList data pat).find? (fun i => decide (start ≤ i))

/-- Model of the search loop of `_literal_replace` (patcher.py lines 94-98):
`idx = -1`, then `occurrence` times `idx = data.find(match, idx + 1)`,
failing (`none`) as soon as a find misses. -/
def loopFind (data pat : List Nat) : Nat → Int → Option Int
  | 0, idx => some idx
  | n + 1, idx =>
    match pyFind data pat (idx + 1).toNat with
    | none => none
    | some j => loopFind data pat n j

/-- Python slice `xs[:j]` for an `Int` index `j` (negative counts from the end). -/
def pySliceTo (xs : List Nat) (j : Int) : List Nat :=
  if j < 0 then xs.take ((xs.length : Int) + j).toNat else xs.take j.toNat

/-- Python slice `xs[i:]` for an `Int` index `i` (negative counts from the end). -/
def pySliceFrom (xs : List Nat) (i : Int) : List Nat :=
  if i < 0 then xs.drop ((xs.length : Int) + i).toNat else xs.drop i.toNat

/-- Model of `_literal_replace(data, match, replacement, occurrence)`
(patcher.py lines 92-99): locate the `occurrence`-th find position, raise
`PatchError` (modelled as `Except.error`) when a find misses, else return
`data[:idx] + replacement + data[idx + len(match):]`. -/
def literalReplace (data m r : List Nat) (occ : Nat) : Except String (List Nat) :=
  match loopFind data m occ (-1) with
  | none => Except.error "literal_replace: match not found"
  | some idx => Except.ok (pySliceTo data idx ++ r ++ pySliceFrom data (idx + (m.length : Int)))

/-- Model of `_append_block(data, anchor, block, position)`
(patcher.py lines 102-113). -/
def appendBlock (data anchor block : List Nat) (pos : String) : Except String (List Nat) :=
  match pyFind data anchor 0 with
  | none => Except.error "append_block: anchor not found"
  | some idx =>
    if pos = "before" then
      Except.ok (data.take idx ++ block ++ data.drop idx)
    else if pos = "after" then
      Except.ok (data.take (idx + anchor.length) ++ block ++ data.drop (idx + anchor.length))
    else Except.error "append_block: unknown position"

/-- One patch dict of a recipe, with the fields the engine reads.  The
byte-valued fields (`match`, `replacement`, `anchor`, `block`, `content`)
are modelled post-`_encode`; `occurrence` defaults to 1; recipes whose dicts
lack a field the engine reads unconditionally are outside the model. -/
structure Patch where
  id : String := "?"
  part : String := ""
  operation : String := ""
  description : String := "(no description)"
  matchVal : List Nat := []
  replacement : List Nat := []
  occurrence : Nat := 1
  anchor : List Nat := []
  block : List Nat := []
  position : String := "before"
  content : List Nat := []
  deriving Repr, DecidableEq

/-- Bytes of an ASCII string (each of our sentinel constants is ASCII, where
UTF-8 bytes coincide with code points). -/
def asciiBytes (s : String) : List Nat :=
  s.data.map Char.toNat

/-- The reserved stub sentinels `STUB_PLACEHOLDERS` (patcher.py lines 81-85),
as the engine compares them: by (encoded) string equality. -/
def stubPlaceholders : List (List Nat) :=
  [asciiBytes "<REVIEW_REQUIRED>", asciiBytes "<FILL_IN_LINEFEED_VALUE>",
   asciiBytes "<FILL_IN_CLEAN_VALUE>"]

/-- Stub detection of apply_recipe (patcher.py lines 178-180): a
`literal_replace` whose `match` is a reserved sentinel. -/
def isStubPatch (p : Patch) : Bool :=
  p.operation = "literal_replace" && stubPlaceholders.contains p.matchVal

/-- Skip message recorded for a stub (patcher.py line 182). -/
def skipMsg (p : Patch) : String :=
  "[" ++ p.id ++ "] STUB SKIPPED — " ++ p.description

/-- Model of `_apply_one(data, patch)` (patcher.py lines 116-141):
`ok none` signals deletion, `error` models a raised `PatchError`. -/
def applyOne (data : List Nat) (p : Patch) : Except String (Option (List Nat)) :=
  if p.operation = "literal_replace" then
    (literalReplace data p.matchVal p.replacement p.occurrence).map some
  else if p.operation = "append_block" then
    (appendBlock data p.anchor p.block p.position).map some
  else if p.operation = "delete_part" then
    Except.ok none
  else if p.operation = "set_part" then
    Except.ok (some p.content)
  else Except.error ("Unknown operation: " ++ p.operation)

/-- The in-memory part map: ordered `(name, bytes)` pairs with unique names
once built by `dictOf`. -/
abbrev PartsMap := List (String × List Nat)

/-- Python `dict` assignment `m[k] = v`: overwrite in place if the key is
present, else append. -/
def dictSet (m : PartsMap) (k : String) (v : List Nat) : PartsMap :=
  if m.any (fun e => e.1 = k) then
    m.map (fun e => if e.1 = k then (k, v) else e)
  else m ++ [(k, v)]

/-- Loading all entries of an archive into a `dict` (patcher.py lines 158-161). -/
def dictOf (arch : List (String × List Nat)) : PartsMap :=
  arch.foldl (fun m e => dictSet m e.1 e.2) []

/-- Value of key `k` in the map (the engine only reads keys it has checked
are present). -/
def dictGet (m : PartsMap) (k : String) : List Nat :=
  (((m.find? (fun e => e.1 = k)).map Prod.snd).getD [])

/-- Loop state of apply_recipe (patcher.py lines 158-165): the part map, the
set of names marked deleted, and the accumulated error / skip messages. -/
structure EngineState where
  parts : PartsMap
  deleted : List String
  errors : List String
  skipped : List String
  deriving Repr, DecidableEq

/-- One iteration of the patch loop of apply_recipe (patcher.py lines
167-201): stub check first, then `delete_part`, then the part-existence
check, then `_apply_one` with `PatchError` captured into `errors`. -/
def processPatch (st : EngineState) (p : Patch) : EngineState :=
  if isStubPatch p then
    { st with skipped := st.skipped ++ [skipMsg p] }
  else if p.operation = "delete_part" then
    if st.parts.any (fun e => e.1 = p.part) then
      { st with deleted := st.deleted ++ [p.part] }
    else
      { st with errors := st.errors ++
          ["[" ++ p.id ++ "] delete_part: '" ++ p.part ++ "' not in archive (already absent?)"] }
  else if st.parts.any (fun e => e.1 = p.part) then
    match applyOne (dictGet st.parts p.part) p with
    | Except.error e => { st with errors := st.errors ++ ["[" ++ p.id ++ "] " ++ e] }
    | Except.ok none => st
    | Except.ok (some b) => { st with parts := dictSet st.parts p.part b }
  else
    { st with errors := st.errors ++ ["[" ++ p.id ++ "] part '" ++ p.part ++ "' not found in archive"] }

/-- Result of one apply_recipe run: the entries written to the output ZIP
(patcher.py lines 204-210) and the accumulated error / skip lists. -/
structure ApplyResult where
  output : List (String × List Nat)
  errors : List String
  skipped : List String
  deriving Repr, DecidableEq

/-- Model of `apply_recipe(source, recipe, output)` (patcher.py lines
144-225): load parts, run every patch, then write every non-deleted part in
map order.  The output file is written in all cases. -/
def applyRecipe (arch : List (String × List Nat)) (ps : List Patch) : ApplyResult :=
  let final := ps.foldl processPatch ⟨dictOf arch, [], [], []⟩
  { output := final.parts.filter (fun e => ¬ final.deleted.contains e.1)
    errors := final.errors
    skipped := final.skipped }

/-- Outcome decided after the write (patcher.py lines 212-225): hard errors
raise `PatchError`, else skipped stubs raise `PatchWarning` (carrying the
skipped list), else the output path is returned. -/
inductive Outcome where
  | patchFailure (msgs : List String)
  | patchCaution (skipped : List String)
  | done
  deriving Repr, DecidableEq

/-- The outcome of a run, as apply_recipe decides it after writing. -/
def outcomeOf (r : ApplyResult) : Outcome :=
  if r.errors ≠ [] then Outcome.patchFailure r.errors
  else if r.skipped ≠ [] then Outcome.patchCaution r.skipped
  else Outcome.done

/-! ## Recipe model (triage/report.py) -/

/-- The `PatchOp` dataclass of report.py (lines 19-35): optional string
fields default to `none`, mirroring `Optional[str] = None`. -/
structure PatchOp where
  id : String := ""
  part : String := ""
  operation : String := ""
  description : String := ""
  matchVal : Option String := none
  replacement : Option String := none
  occurrence : Nat := 1
  anchor : Option String := none
  block : Option String := none
  position : String := "before"
  content : Option String := none
  deriving Repr, DecidableEq

/-- The `PatchRecipe` dataclass of report.py (lines 57-62); `createdAt`
defaults to the creation timestamp, irrelevant to merging. -/
structure PatchRecipe where
  sourceFile : String := ""
  createdAt : String := ""
  version : String := "1"
  patches : List PatchOp := []
  deriving Repr, DecidableEq

/-- Deduplication key of merge_recipes (report.py line 168):
`(p.part, p.operation, p.match)`. -/
def opKey (p : PatchOp) : String × String × Option String :=
  (p.part, p.operation, p.matchVal)

/-- The inner loop of merge_recipes: walk the concatenated op lists, keep an
op iff its key has not been seen, remembering seen keys. -/
def mergeOps (seen : List (String × String × Option String)) :
    List PatchOp → List PatchOp
  | [] => []
  | p :: rest =>
    if opKey p ∈ seen then mergeOps seen rest
    else p :: mergeOps (opKey p :: seen) rest

/-- Model of `merge_recipes(*recipes)` (report.py lines 162-172): a fresh
recipe taking the first recipe's source file, with the concatenated patch
lists deduplicated by `opKey`, first occurrence kept. -/
def mergeRecipes (rs : List PatchRecipe) : PatchRecipe :=
  { sourceFile := ((rs.head?).map PatchRecipe.sourceFile).getD ""
    patches := mergeOps [] (rs.map PatchRecipe.patches).flatten }

/-! ## Gate checks (triage/gate_checks.py)

The two gates needed by the claims work on the UTF-8-decoded text of parts
(`_txt`); an archive is given here as `(name, decoded text)` pairs.  The
regex patterns involved are of one simple shape — a literal head, a word
boundary, `[^>]*`, a word boundary, a literal attribute, `(\d+)`, `"` — and
are modelled directly with Python's leftmost-start, greedy-with-backtracking
match semantics. -/

/-- Word character of the regex `\b` boundary (ASCII range of `\w`). -/
def isWordChar (c : Char) : Bool :=
  c.isAlphanum || c = '_'

/-- Pattern occurrence over decoded text: `pat` occurs in `s` at index `i`. -/
def matchesAtC (s pat : List Char) (i : Nat) : Bool :=
  decide ((s.drop i).take pat.length = pat)

/-- Character of `s` at index `i`, if any. -/
def charAt (s : List Char) (i : Nat) : Option Char :=
  (s.drop i).head?

/-- Whether the characters of `s` at indices `[a, b)` are all allowed in
`[^>]*`, i.e. none is `>`. -/
def allNonGt (s : List Char) (a b : Nat) : Bool :=
  ((s.drop a).take (b - a)).all (fun c => c ≠ '>')

/-- Numeric value of a digit run, as `int(...)` reads a `(\d+)` capture. -/
def digitsVal (ds : List Char) : Nat :=
  ds.foldl (fun acc c => 10 * acc + (c.toNat - 48)) 0

/-- One anchored attempt of the pattern `head\b[^>]*\battr(\d+)"` at start
`i` with `[^>]*` ending at `j`: on success, the captured number and the
index one past the closing quote. -/
def completionAt (head attr s : List Char) (i j : Nat) : Option (Nat × Nat) :=
  if matchesAtC s head i
      && (charAt s (i + head.length)).all (fun c => ¬ isWordChar c)
      && decide (i + head.length ≤ j)
      && allNonGt s (i + head.length) j
      && (charAt s (j - 1)).any (fun c => ¬ isWordChar c)
      && matchesAtC s attr j then
    let ds := (s.drop (j + attr.length)).takeWhile Char.isDigit
    if ds ≠ [] && charAt s (j + attr.length + ds.length) = some '"' then
      some (digitsVal ds, j + attr.length + ds.length + 1)
    else none
  else none

/-- The greedy match at start `i`: `[^>]*` backtracks from longest, so the
completion with the largest `j` wins. -/
def bestAt (head attr s : List Char) (i : Nat) : Option (Nat × Nat) :=
  ((List.range (s.length + 2)).filterMap (fun j => completionAt head attr s i j)).getLast?

/-- Leftmost match with start `≥ pos`: the first start index at which some
completion exists, taken greedily. -/
def findAttrFrom (head attr s : List Char) (pos : Nat) : Option (Nat × Nat) :=
  ((List.range (s.length + 1)).filterMap (fun i =>
    if pos ≤ i then bestAt head attr s i else none)).head?

/-- Fuel-driven `finditer` loop: collect captured values of successive
non-overlapping matches, resuming after each match end.  Each match end
strictly exceeds the position searched from, so `s.length + 2` fuel always
suffices. -/
def attrScanAux (head attr s : List Char) : Nat → Nat → List Nat
  | 0, _ => []
  | fuel + 1, pos =>
    match findAttrFrom head attr s pos with
    | none => []
    | some (v, e) => v :: attrScanAux head attr s fuel e

/-- All captured values of `finditer(head\b[^>]*\battr(\d+)")` over `s`. -/
def attrMatchesAll (head attr s : List Char) : List Nat :=
  attrScanAux head attr s (s.length + 2) 0

/-- Declared dxfs count: model of
`re.search(r'<dxfs\b[^>]*\bcount="(\d+)"', txt)` (gate_checks.py line 202). -/
def dxfsDeclared (s : List Char) : Option Nat :=
  (findAttrFrom "<dxfs".data ("count=" ++ "\"").data s 0).map Prod.fst

/-- Actual dxf count: model of `len(re.findall(r"<dxf\b", txt))`
(gate_checks.py line 201): occurrences of `<dxf` whose next character is
absent or not a word character (which excludes the `<dxfs` element tag). -/
def countDxf (s : List Char) : Nat :=
  ((List.range (s.length + 1)).filter (fun i =>
    matchesAtC s "<dxf".data i
      && (charAt s (i + 4)).all (fun c => ¬ isWordChar c))).length

/-- The dxfId values referenced by conditional-formatting rules: model of
`re.finditer(r'<cfRule\b[^>]*\bdxfId="(\d+)"', s)` (gate_checks.py line 208). -/
def cfRuleDxfIds (s : List Char) : List Nat :=
  attrMatchesAll "<cfRule".data ("dxfId=" ++ "\"").data s

/-- Python `name.startswith(pre)` on the character sequence. -/
def strStartsWith (s pre : String) : Bool :=
  decide (s.data.take pre.data.length = pre.data)

/-- Python `name.endswith(suf)` on the character sequence. -/
def strEndsWith (s suf : String) : Bool :=
  decide (suf.data.length ≤ s.data.length ∧
    s.data.drop (s.data.length - suf.data.length) = suf.data)

/-- Worksheet parts of the archive: model of `_sheets`
(gate_checks.py lines 28-29). -/
def sheetsOf (arch : List (String × List Char)) : List (String × List Char) :=
  arch.filter (fun e => strStartsWith e.1 "xl/worksheets/sheet" && strEndsWith e.1 ".xml")

/-- Findings of the styles-dxf gate. -/
inductive DxfFinding where
  | missingStyles
  | countMismatch (declared actual : Nat)
  | dxfIdOutOfRange (part : String) (dxfId : Nat) (dxfCount : Nat)
  deriving Repr, DecidableEq

/-- Model of `check_styles_dxf(z)` (gate_checks.py lines 196-212): missing
styles part is its own finding; else compare the declared count (when
present) to the actual `<dxf\b` count, then range-check every worksheet
`cfRule dxfId` against the actual count. -/
def checkStylesDxf (arch : List (String × List Char)) : List DxfFinding :=
  match arch.find? (fun e => e.1 = "xl/styles.xml") with
  | none => [DxfFinding.missingStyles]
  | some styles =>
    let actual := countDxf styles.2
    let mismatch :=
      match dxfsDeclared styles.2 with
      | some d => if d ≠ actual then [DxfFinding.countMismatch d actual] else []
      | none => []
    mismatch ++ (sheetsOf arch).flatMap (fun sh =>
      (cfRuleDxfIds sh.2).filterMap (fun did =>
        if did < actual then none
        else some (DxfFinding.dxfIdOutOfRange sh.1 did actual)))

/-- Number of plain substring occurrences of `pat` in `s`.  This is the
count named by the specification sentence for the styles gate ("the count
of `<dxf` substrings"), kept separate from `countDxf` (the code's
word-boundary count) for comparison. -/
def claimSubstrCount (s pat : List Char) : Nat :=
  ((List.range (s.length + 1)).filter (fun i => matchesAtC s pat i)).length

/-- First index `k ≥ a` holding `>`, the character matched after `[^>]*`. -/
def firstGtFrom (s : List Char) (a : Nat) : Option Nat :=
  ((List.range s.length).filter (fun k => a ≤ k && charAt s k = some '>')).head?

/-- First index `k ≥ a` at which `</f>` occurs, the end the lazy `(.*?)`
stops at. -/
def firstCloseFrom (s : List Char) (a : Nat) : Option Nat :=
  ((List.range (s.length + 1)).filter (fun k =>
    a ≤ k && matchesAtC s "</f>".data k)).head?

/-- Leftmost match of `<f\b[^>]*>(.*?)</f>` (DOTALL) with start `≥ pos`:
the group text and the match end.  `[^>]*>` can only end at the first `>`
at or after the head; the lazy group then runs to the first `</f>`. -/
def fFormulaFrom (s : List Char) (pos : Nat) : Option (List Char × Nat) :=
  ((List.range (s.length + 1)).filterMap (fun i =>
    if pos ≤ i && matchesAtC s "<f".data i
        && (charAt s (i + 2)).all (fun c => ¬ isWordChar c) then
      match firstGtFrom s (i + 2) with
      | none => none
      | some g =>
        match firstCloseFrom s (g + 1) with
        | none => none
        | some h => some ((s.drop (g + 1)).take (h - (g + 1)), h + 4)
    else none)).head?

/-- Fuel-driven loop collecting every `<f>` formula group of a sheet, in
order (model of the `finditer` of gate_checks.py line 61). -/
def formulaScanAux (s : List Char) : Nat → Nat → List (List Char)
  | 0, _ => []
  | fuel + 1, pos =>
    match fFormulaFrom s pos with
    | none => []
    | some (g, e) => g :: formulaScanAux s fuel e

/-- All formula texts of one worksheet part. -/
def formulasOf (s : List Char) : List (List Char) :=
  formulaScanAux s (s.length + 2) 0

/-- The sentinel substrings `STOPSHIP_TOKENS` (gate_checks.py line 17). -/
def stopshipTokens : List (List Char) :=
  ["_xlfn.".data, "_xludf.".data, "_xlpm.".data, "AGGREGATE(".data]

/-- Substring containment, as Python `tok in m.group(1)`. -/
def containsSub (s pat : List Char) : Bool :=
  (List.range (s.length + 1)).any (fun i => matchesAtC s pat i)

/-- One finding of the stop-ship gate: part name, the sentinel token, and
the 120-character formula snippet. -/
structure StopFinding where
  part : String
  token : List Char
  snippet : List Char
  deriving Repr, DecidableEq

/-- Findings one formula contributes: one finding per sentinel token the
formula text contains, in token order (gate_checks.py lines 62-64). -/
def formulaFindings (n : String) (g : List Char) : List StopFinding :=
  stopshipTokens.filterMap (fun tok =>
    if containsSub g tok then some ⟨n, tok, g.take 120⟩ else none)

/-- Model of `check_stopship_tokens(z)` (gate_checks.py lines 57-65). -/
def checkStopship (arch : List (String × List Char)) : List StopFinding :=
  (sheetsOf arch).flatMap (fun e => (formulasOf e.2).flatMap (fun g => formulaFindings e.1 g))

/-! ## Output serialisation and the clock (for determinism claims)

Modelled from Python stdlib `zipfile` semantics: `ZipFile.writestr` called
with a *name string* (patcher.py line 208) builds a `ZipInfo` whose
`date_time` is read from `time.localtime()` at call time; the entry's local
file header embeds that DOS-encoded time and date, so the raw archive bytes
depend on the wall clock and local timezone, not only on the entries. -/

/-- First 14 bytes of a local file header written for a DEFLATE entry:
signature `PK\x03\x04`, version-needed 20, flags 0, method 8, then the DOS
modification time and date taken from the clock. -/
def localHeaderPrefix (dosTime dosDate : Nat) : List Nat :=
  [0x50, 0x4B, 0x03, 0x04, 20, 0, 0, 0, 8, 0,
   dosTime % 256, dosTime / 256 % 256, dosDate % 256, dosDate / 256 % 256]

/-- Prefix of the raw bytes of the file apply_recipe writes, as a function
of the input, the recipe, and the clock reading at write time (an empty
archive starts with the end-of-central-directory signature instead). -/
def outputFilePrefix (arch : List (String × List Nat)) (ps : List Patch)
    (dosTime dosDate : Nat) : List Nat :=
  match (applyRecipe arch ps).output with
  | [] => [0x50, 0x4B, 0x05, 0x06]
  | _ :: _ => localHeaderPrefix dosTime dosDate

/-! ## Engine lemmas

The loop state factors: the part map, deletion set and error list never read
the skip list, and the skip list grows by a fixed message exactly at stub
patches.  `CoreState`/`stepCore` name that factored core. -/

/-- The skip-independent components of the loop state. -/
structure CoreState where
  parts : PartsMap
  deleted : List String
  errors : List String
  deriving Repr, DecidableEq

/-- The action of one patch on the skip-independent components (same branch
structure as `processPatch`). -/
def stepCore (c : CoreState) (p : Patch) : CoreState :=
  if isStubPatch p then c
  else if p.operation = "delete_part" then
    if c.parts.any (fun e => e.1 = p.part) then
      { c with deleted := c.deleted ++ [p.part] }
    else
      { c with errors := c.errors ++
          ["[" ++ p.id ++ "] delete_part: '" ++ p.part ++ "' not in archive (already absent?)"] }
  else if c.parts.any (fun e => e.1 = p.part) then
    match applyOne (dictGet c.parts p.part) p with
    | Except.error e => { c with errors := c.errors ++ ["[" ++ p.id ++ "] " ++ e] }
    | Except.ok none => c
    | Except.ok (some b) => { c with parts := dictSet c.parts p.part b }
  else
    { c with errors := c.errors ++ ["[" ++ p.id ++ "] part '" ++ p.part ++ "' not found in archive"] }

/-- What one patch appends to the skip list. -/
def skipDelta (p : Patch) : List String :=
  if isStubPatch p then [skipMsg p] else []

theorem processPatch_factor (c : CoreState) (s : List String) (p : Patch) :
    processPatch ⟨c.parts, c.deleted, c.errors, s⟩ p =
      ⟨(stepCore c p).parts, (stepCore c p).deleted, (stepCore c p).errors, s ++ skipDelta p⟩ := by
  unfold processPatch stepCore skipDelta
  by_cases h1 : isStubPatch p
  · simp [h1]
  · simp only [h1, Bool.false_eq_true, if_false]
    split_ifs with h2 h3 h4
    · simp
    · simp
    · cases happ : applyOne (dictGet c.parts p.part) p with
      | error e => simp
      | ok b => cases b <;> simp
    · simp

theorem foldl_factor (ps : List Patch) (c : CoreState) (s : List String) :
    ps.foldl processPatch ⟨c.parts, c.deleted, c.errors, s⟩ =
      ⟨(ps.foldl stepCore c).parts, (ps.foldl stepCore c).deleted,
        (ps.foldl stepCore c).errors, s ++ ps.flatMap skipDelta⟩ := by
  induction ps generalizing c s with
  | nil => simp
  | cons p t ih =>
    simp only [List.foldl_cons, List.flatMap_cons]
    rw [processPatch_factor c s p, ih (stepCore c p) (s ++ skipDelta p), List.append_assoc]

theorem applyRecipe_factored (arch : List (String × List Nat)) (ps : List Patch) :
    applyRecipe arch ps =
      { output := ((ps.foldl stepCore ⟨dictOf arch, [], []⟩).parts).filter
          (fun e => ¬ (ps.foldl stepCore ⟨dictOf arch, [], []⟩).deleted.contains e.1)
        errors := (ps.foldl stepCore ⟨dictOf arch, [], []⟩).errors
        skipped := ps.flatMap skipDelta } := by
  have h := foldl_factor ps ⟨dictOf arch, [], []⟩ []
  simp only [applyRecipe, h, List.nil_append]

theorem stepCore_stub (c : CoreState) (p : Patch) (h : isStubPatch p = true) :
    stepCore c p = c := by
  simp [stepCore, h]

theorem foldl_stepCore_filter (ps : List Patch) (c : CoreState) :
    ps.foldl stepCore c = (ps.filter (fun p => ¬ isStubPatch p)).foldl stepCore c := by
  induction ps generalizing c with
  | nil => rfl
  | cons p t ih =>
    by_cases h : isStubPatch p
    · simp [h, stepCore_stub c p h, ih]
    · simp [h, ih]

theorem dictSet_fresh (m : PartsMap) (k : String) (v : List Nat)
    (h : m.any (fun e => e.1 = k) = false) : dictSet m k v = m ++ [(k, v)] := by
  simp [dictSet, h]

theorem dictOf_aux (arch : List (String × List Nat)) (m : PartsMap)
    (hdis : ∀ e ∈ arch, m.any (fun x => x.1 = e.1) = false)
    (hnd : (arch.map Prod.fst).Nodup) :
    arch.foldl (fun m e => dictSet m e.1 e.2) m = m ++ arch := by
  induction arch generalizing m with
  | nil => simp
  | cons e t ih =>
    simp only [List.map_cons, List.nodup_cons] at hnd
    rw [List.foldl_cons, dictSet_fresh m e.1 e.2 (hdis e (List.mem_cons_self e t)),
      ih (m ++ [(e.1, e.2)])]
    · simp
    · intro x hx
      simp only [List.any_append, Bool.or_eq_false_iff]
      refine ⟨hdis x (List.mem_cons_of_mem e hx), ?_⟩
      simp only [List.any_cons, List.any_nil, Bool.or_false]
      have : e.1 ≠ x.1 := fun hcontra => hnd.1 (hcontra ▸ List.mem_map_of_mem Prod.fst hx)
      simp [decide_eq_false (Ne.symm this ∘ Eq.symm)]
    · exact hnd.2

theorem dictOf_nodup (arch : List (String × List Nat))
    (hnd : (arch.map Prod.fst).Nodup) : dictOf arch = arch := by
  have h := dictOf_aux arch [] (fun e _ => rfl) hnd
  simpa [dictOf] using h

/-! ## Claim C1: the empty recipe is the identity on archives -/

/-- C1: for every candidate archive (with distinct entry names, as a ZIP
produced by the scanner has), applying a recipe whose patch list is empty
produces an output archive with exactly the input's entries — equal names
and equal decompressed bytes — and the run finishes clean. -/
theorem applyRecipe_empty_identity (arch : List (String × List Nat))
    (hnd : (arch.map Prod.fst).Nodup) :
    (applyRecipe arch []).output = arch ∧
      outcomeOf (applyRecipe arch []) = Outcome.done := by
  rw [applyRecipe_factored]
  simp [outcomeOf, dictOf_nodup arch hnd]

/-- Witness for C1 at a concrete two-entry archive. -/
theorem applyRecipe_empty_identity_witness :
    (applyRecipe [("xl/a.xml", [1, 2]), ("xl/b.xml", [3])] []).output =
        [("xl/a.xml", [1, 2]), ("xl/b.xml", [3])] ∧
      outcomeOf (applyRecipe [("xl/a.xml", [1, 2]), ("xl/b.xml", [3])] []) = Outcome.done :=
  applyRecipe_empty_identity [("xl/a.xml", [1, 2]), ("xl/b.xml", [3])] (by decide)

/-! ## Claim C3: set_part semantics -/

/-- C3 (amended): a `set_part` op replaces the named entry's bytes with the
verbatim content when the part exists; when the part is absent, the engine
records a hard error and creates nothing. -/
theorem setPart_replace_or_error (st : EngineState) (p : Patch)
    (hop : p.operation = "set_part") :
    (st.parts.any (fun e => e.1 = p.part) = true →
        processPatch st p = { st with parts := dictSet st.parts p.part p.content }) ∧
    (st.parts.any (fun e => e.1 = p.part) = false →
        processPatch st p = { st with errors := st.errors ++
          ["[" ++ p.id ++ "] part '" ++ p.part ++ "' not found in archive"] }) := by
  constructor <;> intro hmem <;>
    simp [processPatch, isStubPatch, applyOne, hop, hmem]

/-- Witness for C3 applying `set_part` to a present part. -/
theorem setPart_replace_or_error_witness :
    processPatch ⟨[("xl/a.xml", [120])], [], [], []⟩
        { id := "p1", part := "xl/a.xml", operation := "set_part", content := [66] } =
      ⟨dictSet [("xl/a.xml", [120])] "xl/a.xml" [66], [], [], []⟩ :=
  (setPart_replace_or_error ⟨[("xl/a.xml", [120])], [], [], []⟩
    { id := "p1", part := "xl/a.xml", operation := "set_part", content := [66] } rfl).1
    (by decide)

/-- Concrete patch used in the C3 counterexample. -/
def c3Patch : Patch :=
  { id := "p1", part := "xl/b.xml", operation := "set_part", content := [66] }

/-- Counterexample to C3 as stated: a `set_part` naming an absent part does
not create the entry; the run records a hard error instead. -/
theorem setPart_absent_not_created :
    ((applyRecipe [("xl/a.xml", [120])] [c3Patch]).output.find?
        (fun e => e.1 = "xl/b.xml")) = none ∧
      (applyRecipe [("xl/a.xml", [120])] [c3Patch]).errors ≠ [] := by decide

/-! ## Claim C5: stub-only recipes preserve the archive and warn -/

/-- C5: a nonempty recipe all of whose patches are `literal_replace` ops
with a reserved stub sentinel as match leaves every entry byte-identical to
the input, records no hard error, and ends in `PatchWarning` carrying the
skipped list (one skip message per stub, in order). -/
theorem stub_only_recipe_preserves (arch : List (String × List Nat)) (ps : List Patch)
    (hnd : (arch.map Prod.fst).Nodup) (hne : ps ≠ [])
    (hstub : ∀ p ∈ ps, isStubPatch p = true) :
    (applyRecipe arch ps).output = arch ∧
      (applyRecipe arch ps).errors = [] ∧
      (applyRecipe arch ps).skipped = ps.map skipMsg ∧
      outcomeOf (applyRecipe arch ps) = Outcome.patchCaution (ps.map skipMsg) := by
  have hfilter : ps.filter (fun p => ¬ isStubPatch p) = [] := by
    rw [List.filter_eq_nil_iff]
    intro p hp
    simp [hstub p hp]
  have hflat : ∀ l : List Patch, (∀ p ∈ l, isStubPatch p = true) →
      l.flatMap skipDelta = l.map skipMsg := by
    intro l hl
    induction l with
    | nil => rfl
    | cons p t ih =>
      simp [skipDelta, hl p (List.mem_cons_self p t),
        ih (fun x hx => hl x (List.mem_cons_of_mem p hx))]
  rw [applyRecipe_factored, foldl_stepCore_filter, hfilter]
  have hmapne : ps.map skipMsg ≠ [] := by
    simpa using hne
  simp [outcomeOf, dictOf_nodup arch hnd, hflat ps hstub, hmapne]

/-- Concrete stub patch used in witnesses. -/
def stubPatchW : Patch :=
  { id := "s1", part := "xl/a.xml", operation := "literal_replace",
    matchVal := asciiBytes "<REVIEW_REQUIRED>",
    replacement := asciiBytes "<REVIEW_REQUIRED>" }

/-- Witness for C5 at a one-entry archive and a single stub patch. -/
theorem stub_only_recipe_preserves_witness :
    (applyRecipe [("xl/a.xml", [104])] [stubPatchW]).output = [("xl/a.xml", [104])] ∧
      (applyRecipe [("xl/a.xml", [104])] [stubPatchW]).errors = [] ∧
      (applyRecipe [("xl/a.xml", [104])] [stubPatchW]).skipped = [stubPatchW].map skipMsg ∧
      outcomeOf (applyRecipe [("xl/a.xml", [104])] [stubPatchW]) =
        Outcome.patchCaution ([stubPatchW].map skipMsg) :=
  stub_only_recipe_preserves [("xl/a.xml", [104])] [stubPatchW]
    (by decide) (by decide) (by decide)

/-! ## Claim C6: stubs do not disturb real ops; errors supersede the warning -/

/-- C6: inserting a stub op anywhere into a recipe changes neither the
written entries nor the hard-error list (so every applicable real op is
still applied), the skipped list is nonempty, and — the outcome being
decided only after the output is produced — the run raises `PatchWarning`
when no hard error occurred and `PatchError` (superseding the warning)
when one did. -/
theorem mixed_stub_real_recipe (arch : List (String × List Nat))
    (ps1 ps2 : List Patch) (q : Patch) (hq : isStubPatch q = true) :
    (applyRecipe arch (ps1 ++ q :: ps2)).output = (applyRecipe arch (ps1 ++ ps2)).output ∧
    (applyRecipe arch (ps1 ++ q :: ps2)).errors = (applyRecipe arch (ps1 ++ ps2)).errors ∧
    (applyRecipe arch (ps1 ++ q :: ps2)).skipped ≠ [] ∧
    ((applyRecipe arch (ps1 ++ q :: ps2)).errors = [] →
        outcomeOf (applyRecipe arch (ps1 ++ q :: ps2)) =
          Outcome.patchCaution ((applyRecipe arch (ps1 ++ q :: ps2)).skipped)) ∧
    ((applyRecipe arch (ps1 ++ q :: ps2)).errors ≠ [] →
        outcomeOf (applyRecipe arch (ps1 ++ q :: ps2)) =
          Outcome.patchFailure ((applyRecipe arch (ps1 ++ q :: ps2)).errors)) := by
  have hcore : (ps1 ++ q :: ps2).foldl stepCore ⟨dictOf arch, [], []⟩ =
      (ps1 ++ ps2).foldl stepCore ⟨dictOf arch, [], []⟩ := by
    rw [foldl_stepCore_filter, foldl_stepCore_filter (ps1 ++ ps2)]
    simp [List.filter_append, hq]
  have hdq : skipDelta q = [skipMsg q] := by simp [skipDelta, hq]
  have hskip : (applyRecipe arch (ps1 ++ q :: ps2)).skipped ≠ [] := by
    rw [applyRecipe_factored]
    have hm : skipMsg q ∈ (ps1 ++ q :: ps2).flatMap skipDelta :=
      List.mem_flatMap.mpr ⟨q, by simp, by simp [hdq]⟩
    exact List.ne_nil_of_mem hm
  refine ⟨?_, ?_, hskip, ?_, ?_⟩
  · rw [applyRecipe_factored, applyRecipe_factored, hcore]
  · rw [applyRecipe_factored, applyRecipe_factored, hcore]
  · intro he
    simp [outcomeOf, he, hskip]
  · intro he
    simp [outcomeOf, he]

/-- Concrete applicable real op used in the C6 witness. -/
def realPatchW : Patch :=
  { id := "r1", part := "xl/a.xml", operation := "literal_replace",
    matchVal := asciiBytes "HELLO", replacement := asciiBytes "PATCHED" }

/-- Witness for C6: one stub inserted before one real replacement. -/
theorem mixed_stub_real_recipe_witness :
    (applyRecipe [("xl/a.xml", asciiBytes "HELLO")]
          ([] ++ stubPatchW :: [realPatchW])).output =
      (applyRecipe [("xl/a.xml", asciiBytes "HELLO")] ([] ++ [realPatchW])).output :=
  (mixed_stub_real_recipe [("xl/a.xml", asciiBytes "HELLO")] [] [realPatchW]
    stubPatchW (by decide)).1

/-! ## Claim C10: stub detection precedes the part-existence check -/

/-- C10: a stub `literal_replace` is recorded as skipped unconditionally —
the step ignores the part map entirely, so an absent named part changes
nothing; the stub's message reaches the skipped list of the run, and the
hard-error list is that of the recipe with every stub removed. -/
theorem stub_skipped_before_existence_check (arch : List (String × List Nat))
    (ps : List Patch) (p : Patch) (hmem : p ∈ ps) (hs : isStubPatch p = true) :
    (∀ st : EngineState, processPatch st p = { st with skipped := st.skipped ++ [skipMsg p] }) ∧
    skipMsg p ∈ (applyRecipe arch ps).skipped ∧
    (applyRecipe arch ps).errors =
      (applyRecipe arch (ps.filter (fun q => ¬ isStubPatch q))).errors := by
  refine ⟨fun st => by simp [processPatch, hs], ?_, ?_⟩
  · rw [applyRecipe_factored]
    exact List.mem_flatMap.mpr ⟨p, hmem, by simp [skipDelta, hs]⟩
  · have hff : (ps.filter (fun q => ¬ isStubPatch q)).filter (fun q => ¬ isStubPatch q) =
        ps.filter (fun q => ¬ isStubPatch q) := by
      apply List.filter_eq_self.mpr
      intro a ha
      exact (List.mem_filter.mp ha).2
    rw [applyRecipe_factored, applyRecipe_factored, foldl_stepCore_filter,
      foldl_stepCore_filter (ps.filter (fun q => ¬ isStubPatch q)), hff]

/-- Witness for C10: a stub naming a part absent from the archive is
skipped, not errored. -/
theorem stub_skipped_before_existence_check_witness :
    skipMsg { stubPatchW with part := "xl/missing.xml" } ∈
        (applyRecipe [("xl/a.xml", [104])]
          [{ stubPatchW with part := "xl/missing.xml" }]).skipped ∧
      (applyRecipe [("xl/a.xml", [104])]
          [{ stubPatchW with part := "xl/missing.xml" }]).errors =
        (applyRecipe [("xl/a.xml", [104])]
          ([{ stubPatchW with part := "xl/missing.xml" }].filter
            (fun q => ¬ isStubPatch q))).errors :=
  ⟨(stub_skipped_before_existence_check [("xl/a.xml", [104])]
      [{ stubPatchW with part := "xl/missing.xml" }]
      { stubPatchW with part := "xl/missing.xml" }
      (List.mem_singleton.mpr rfl) (by decide)).2.1,
   (stub_skipped_before_existence_check [("xl/a.xml", [104])]
      [{ stubPatchW with part := "xl/missing.xml" }]
      { stubPatchW with part := "xl/missing.xml" }
      (List.mem_singleton.mpr rfl) (by decide)).2.2⟩

/-! ## Claim C4: literal_replace replaces exactly the n-th occurrence

`occList` lists the occurrence positions in increasing order; the find loop
of `_literal_replace` walks exactly that list. -/

theorem find?_eq_head_filter (l : List Nat) (p : Nat → Bool) :
    l.find? p = (l.filter p).head? := by
  induction l with
  | nil => rfl
  | cons x t ih =>
    cases h : p x
    · rw [List.find?_cons_of_neg _ (by simp [h]), List.filter_cons_of_neg (by simp [h]), ih]
    · rw [List.find?_cons_of_pos _ h, List.filter_cons_of_pos h, List.head?_cons]

theorem occList_pairwise (data pat : List Nat) : (occList data pat).Pairwise (· < ·) :=
  (List.pairwise_lt_range _).filter _

theorem startPred_eq (a : Int) (x : Nat) :
    decide ((a + 1).toNat ≤ x) = decide (a < (x : Int)) := by
  rw [decide_eq_decide, Int.toNat_le, Int.add_one_le_iff]

theorem filter_gt_decomp (l : List Nat) (hl : l.Pairwise (· < ·)) (a : Int) (j : Nat)
    (hj : (l.filter (fun x : Nat => decide (a < (x : Int)))).head? = some j) :
    l.filter (fun x : Nat => decide (a < (x : Int))) =
      j :: l.filter (fun x : Nat => decide ((j : Int) < (x : Int))) := by
  induction l with
  | nil => simp at hj
  | cons x t ih =>
    rw [List.pairwise_cons] at hl
    have hmemj : ∀ l' : List Nat, l'.head? = some j → j ∈ l' := by
      intro l' h
      cases l' with
      | nil => simp at h
      | cons y u => simp only [List.head?_cons, Option.some_inj] at h; simp [h]
    cases hax : decide (a < (x : Int))
    · simp only [List.filter_cons, hax, Bool.false_eq_true, if_false] at hj ⊢
      have hjt : j ∈ t :=
        List.mem_of_mem_filter (hmemj (t.filter (fun x : Nat => decide (a < (x : Int)))) hj)
      rw [ih hl.2 hj]
      have hjx : decide ((j : Int) < (x : Int)) = false := by
        simp only [decide_eq_false_iff_not, not_lt]
        exact_mod_cast (hl.1 j hjt).le
      simp only [hjx, Bool.false_eq_true, if_false]
    · simp only [List.filter_cons, hax, if_true] at hj ⊢
      rw [List.head?_cons, Option.some_inj] at hj
      subst hj
      have hax2 : a < (x : Int) := of_decide_eq_true hax
      have hxx : decide ((x : Int) < (x : Int)) = false := by simp
      simp only [hxx, Bool.false_eq_true, if_false]
      have h1 : t.filter (fun y : Nat => decide (a < (y : Int))) = t :=
        List.filter_eq_self.mpr (fun y hy => by
          simp only [decide_eq_true_eq]
          have hxy : (x : Int) < (y : Int) := by exact_mod_cast hl.1 y hy
          omega)
      have h2 : t.filter (fun y : Nat => decide ((x : Int) < (y : Int))) = t :=
        List.filter_eq_self.mpr (fun y hy => by
          simp only [decide_eq_true_eq]
          exact_mod_cast hl.1 y hy)
      rw [h1, h2]

theorem pyFind_eq (data m : List Nat) (a : Int) :
    pyFind data m (a + 1).toNat =
      ((occList data m).filter (fun x : Nat => decide (a < (x : Int)))).head? := by
  rw [pyFind, find?_eq_head_filter]
  congr 1
  apply List.filter_congr
  intro x _
  exact startPred_eq a x

theorem loopFind_eq_get (data m : List Nat) :
    ∀ (n : Nat) (a : Int),
      loopFind data m (n + 1) a =
        (((occList data m).filter (fun x : Nat => decide (a < (x : Int)))).get? n).map
          (fun x : Nat => (x : Int)) := by
  intro n
  induction n with
  | zero =>
    intro a
    simp only [loopFind, pyFind_eq data m a]
    cases hh : ((occList data m).filter (fun x : Nat => decide (a < (x : Int)))).head? with
    | none => simp [List.get?_eq_none, List.head?_eq_none_iff.mp hh]
    | some j =>
      rw [List.get?_eq_getElem?, ← List.head?_eq_getElem?, hh]
      rfl
  | succ k ih =>
    intro a
    simp only [loopFind, pyFind_eq data m a]
    cases hh : ((occList data m).filter (fun x : Nat => decide (a < (x : Int)))).head? with
    | none =>
      have hnil := List.head?_eq_none_iff.mp hh
      simp [hnil]
    | some j =>
      rw [filter_gt_decomp (occList data m) (occList_pairwise data m) a j hh]
      simp only [List.get?_cons_succ]
      exact ih j

theorem pySliceTo_natCast (xs : List Nat) (i : Nat) : pySliceTo xs (i : Int) = xs.take i := by
  simp [pySliceTo]

theorem pySliceFrom_natCast (xs : List Nat) (i : Nat) : pySliceFrom xs (i : Int) = xs.drop i := by
  simp [pySliceFrom]

/-- C4: `literal_replace` with occurrence `n ≥ 1` replaces exactly the n-th
(1-based) occurrence of `match` in the data — the n-th entry of the
increasing list `occList` of all positions at which `match` occurs — while
every byte before and after the matched region is kept unchanged, and it
fails with the recorded `PatchError` message when the data holds fewer than
`n` occurrences. -/
theorem literalReplace_nth (data m r : List Nat) (n : Nat) (hn : 1 ≤ n) :
    (∀ i, (occList data m).get? (n - 1) = some i →
        literalReplace data m r n =
          Except.ok (data.take i ++ r ++ data.drop (i + m.length))) ∧
    ((occList data m).length < n →
        literalReplace data m r n = Except.error "literal_replace: match not found") := by
  obtain ⟨k, rfl⟩ : ∃ k, n = k + 1 := ⟨n - 1, by omega⟩
  have hself : (occList data m).filter (fun x : Nat => decide ((-1 : Int) < (x : Int))) =
      occList data m :=
    List.filter_eq_self.mpr (fun x _ => by simp only [decide_eq_true_eq]; omega)
  have hchain := loopFind_eq_get data m k (-1)
  rw [hself] at hchain
  constructor
  · intro i hi
    rw [Nat.add_sub_cancel] at hi
    have hsome : loopFind data m (k + 1) (-1) = some (i : Int) := by
      rw [hchain, hi]
      rfl
    rw [literalReplace, hsome]
    show Except.ok (pySliceTo data (i : Int) ++ r ++
      pySliceFrom data ((i : Int) + (m.length : Int))) = _
    rw [show ((i : Int) + (m.length : Int)) = ((i + m.length : Nat) : Int) by push_cast; ring]
    rw [pySliceTo_natCast, pySliceFrom_natCast]
  · intro hlen
    have hnone : (occList data m).get? k = none := by
      rw [List.get?_eq_none]
      omega
    have hln : loopFind data m (k + 1) (-1) = none := by
      rw [hchain, hnone]
      rfl
    rw [literalReplace, hln]

/-- Witness for C4: the second (overlapping) occurrence of `aa` in `aaa`
is replaced, and asking for a third occurrence fails. -/
theorem literalReplace_nth_witness :
    literalReplace (asciiBytes "aaa") (asciiBytes "aa") (asciiBytes "X") 2 =
        Except.ok (asciiBytes "aX") ∧
      literalReplace (asciiBytes "aaa") (asciiBytes "aa") (asciiBytes "X") 3 =
        Except.error "literal_replace: match not found" :=
  ⟨((literalReplace_nth (asciiBytes "aaa") (asciiBytes "aa") (asciiBytes "X") 2
      (by decide)).1 1 (by decide)).trans (congrArg Except.ok (by decide)),
   (literalReplace_nth (asciiBytes "aaa") (asciiBytes "aa") (asciiBytes "X") 3
      (by decide)).2 (by decide)⟩

/-! ## Claim C7: merge order-independence and idempotence -/

/-- The evolution of the `seen` key set while one op list is merged. -/
def seenExt (seen : List (String × String × Option String)) :
    List PatchOp → List (String × String × Option String)
  | [] => seen
  | p :: t => seenExt (if opKey p ∈ seen then seen else opKey p :: seen) t

theorem mem_seenExt : ∀ (l : List PatchOp) (seen) (k),
    k ∈ seenExt seen l ↔ k ∈ seen ∨ k ∈ l.map opKey := by
  intro l
  induction l with
  | nil => intro seen k; simp [seenExt]
  | cons p t ih =>
    intro seen k
    by_cases h : opKey p ∈ seen
    · rw [seenExt, if_pos h, ih]
      have hk : k = opKey p → k ∈ seen := fun he => he ▸ h
      simp only [List.map_cons, List.mem_cons]
      tauto
    · rw [seenExt, if_neg h, ih]
      simp only [List.map_cons, List.mem_cons]
      tauto

theorem mergeOps_append : ∀ (l1 : List PatchOp) (l2 : List PatchOp) (seen),
    mergeOps seen (l1 ++ l2) = mergeOps seen l1 ++ mergeOps (seenExt seen l1) l2 := by
  intro l1
  induction l1 with
  | nil => intro l2 seen; simp [mergeOps, seenExt]
  | cons p t ih =>
    intro l2 seen
    by_cases h : opKey p ∈ seen
    · rw [List.cons_append, mergeOps, if_pos h, mergeOps, if_pos h, seenExt, if_pos h, ih]
    · rw [List.cons_append, mergeOps, if_neg h, mergeOps, if_neg h, seenExt, if_neg h,
        ih, List.cons_append]

theorem mergeOps_subset_nil : ∀ (l : List PatchOp) (seen),
    (∀ p ∈ l, opKey p ∈ seen) → mergeOps seen l = [] := by
  intro l
  induction l with
  | nil => intro seen _; rfl
  | cons p t ih =>
    intro seen h
    rw [mergeOps, if_pos (h p (List.mem_cons_self p t))]
    exact ih seen (fun q hq => h q (List.mem_cons_of_mem p hq))

theorem mergeOps_key_mem : ∀ (l : List PatchOp) (seen) (k),
    (∃ p ∈ mergeOps seen l, opKey p = k) ↔ (k ∉ seen ∧ ∃ p ∈ l, opKey p = k) := by
  intro l
  induction l with
  | nil => intro seen k; simp [mergeOps]
  | cons p t ih =>
    intro seen k
    by_cases h : opKey p ∈ seen
    · rw [mergeOps, if_pos h, ih]
      simp only [List.mem_cons]
      constructor
      · rintro ⟨hns, q, hq, hk⟩
        exact ⟨hns, q, Or.inr hq, hk⟩
      · rintro ⟨hns, q, hq | hq, hk⟩
        · exact absurd ((hq ▸ hk : opKey p = k) ▸ h) hns
        · exact ⟨hns, q, hq, hk⟩
    · rw [mergeOps, if_neg h]
      simp only [List.mem_cons]
      constructor
      · rintro ⟨q, hq | hq, hk⟩
        · exact ⟨(hq ▸ hk : opKey p = k) ▸ h, q, Or.inl hq, hk⟩
        · obtain ⟨hns, q', hq', hk'⟩ := (ih (opKey p :: seen) k).mp ⟨q, hq, hk⟩
          rw [List.mem_cons] at hns
          push_neg at hns
          exact ⟨hns.2, q', Or.inr hq', hk'⟩
      · rintro ⟨hns, q, hq | hq, hk⟩
        · exact ⟨q, Or.inl hq, hk⟩
        · by_cases hkp : k = opKey p
          · exact ⟨p, Or.inl rfl, hkp.symm⟩
          · obtain ⟨q', hq', hk'⟩ := (ih (opKey p :: seen) k).mpr
              ⟨by rw [List.mem_cons]; push_neg; exact ⟨hkp, hns⟩, q, hq, hk⟩
            exact ⟨q', Or.inr hq', hk'⟩

theorem mergeOps_mem_inj : ∀ (l : List PatchOp) (seen),
    (∀ a ∈ l, ∀ b ∈ l, opKey a = opKey b → a = b) →
    ∀ p, p ∈ mergeOps seen l ↔ (p ∈ l ∧ opKey p ∉ seen) := by
  intro l
  induction l with
  | nil => intro seen _ p; simp [mergeOps]
  | cons q t ih =>
    intro seen hinj p
    have hinj' : ∀ a ∈ t, ∀ b ∈ t, opKey a = opKey b → a = b := fun a ha b hb =>
      hinj a (List.mem_cons_of_mem q ha) b (List.mem_cons_of_mem q hb)
    by_cases h : opKey q ∈ seen
    · rw [mergeOps, if_pos h, ih seen hinj']
      simp only [List.mem_cons]
      constructor
      · rintro ⟨hm, hns⟩
        exact ⟨Or.inr hm, hns⟩
      · rintro ⟨hpq | hm, hns⟩
        · exact absurd (by rw [hpq]; exact h) hns
        · exact ⟨hm, hns⟩
    · rw [mergeOps, if_neg h]
      simp only [List.mem_cons, ih (opKey q :: seen) hinj']
      constructor
      · rintro (hpq | ⟨hm, hns⟩)
        · exact ⟨Or.inl hpq, by rw [hpq]; exact h⟩
        · push_neg at hns
          exact ⟨Or.inr hm, hns.2⟩
      · rintro ⟨hpq | hm, hns⟩
        · exact Or.inl hpq
        · by_cases hkq : opKey p = opKey q
          · exact Or.inl (hinj p (List.mem_cons_of_mem q hm) q (List.mem_cons_self q t) hkq)
          · exact Or.inr ⟨hm, by push_neg; exact ⟨hkq, hns⟩⟩

theorem mergeRecipes_pair (A B : PatchRecipe) :
    (mergeRecipes [A, B]).patches = mergeOps [] (A.patches ++ B.patches) := by
  simp [mergeRecipes]

theorem mergeRecipes_single (A : PatchRecipe) :
    (mergeRecipes [A]).patches = mergeOps [] A.patches := by
  simp [mergeRecipes]

/-- C7 (amended): merging A then B and B then A always yield the same set of
dedup keys `(part, operation, match)`; they yield the same op set whenever
no two ops of the inputs share a key without being equal; and merging a
recipe with itself yields exactly what merging it alone yields.  (When two
distinct ops share a key, each order keeps its first op, so the op sets can
differ — see the counterexample.) -/
theorem mergeRecipes_order_and_idem (A B : PatchRecipe) :
    (∀ k, (∃ p ∈ (mergeRecipes [A, B]).patches, opKey p = k) ↔
        (∃ p ∈ (mergeRecipes [B, A]).patches, opKey p = k)) ∧
    ((∀ a ∈ A.patches ++ B.patches, ∀ b ∈ A.patches ++ B.patches, opKey a = opKey b → a = b) →
        ∀ p, p ∈ (mergeRecipes [A, B]).patches ↔ p ∈ (mergeRecipes [B, A]).patches) ∧
    (mergeRecipes [A, A]).patches = (mergeRecipes [A]).patches := by
  refine ⟨?_, ?_, ?_⟩
  · intro k
    rw [mergeRecipes_pair, mergeRecipes_pair, mergeOps_key_mem, mergeOps_key_mem]
    simp only [List.mem_append, List.not_mem_nil, not_false_iff, true_and]
    constructor
    · rintro ⟨q, hq, hk⟩
      exact ⟨q, Or.symm hq, hk⟩
    · rintro ⟨q, hq, hk⟩
      exact ⟨q, Or.symm hq, hk⟩
  · intro hinj p
    have hinj' : ∀ a ∈ B.patches ++ A.patches, ∀ b ∈ B.patches ++ A.patches,
        opKey a = opKey b → a = b := by
      intro a ha b hb
      rw [List.mem_append, or_comm, ← List.mem_append] at ha hb
      exact hinj a ha b hb
    rw [mergeRecipes_pair, mergeRecipes_pair, mergeOps_mem_inj _ _ hinj,
      mergeOps_mem_inj _ _ hinj']
    simp only [List.mem_append, List.not_mem_nil, not_false_iff, and_true]
    exact or_comm
  · rw [mergeRecipes_pair, mergeRecipes_single, mergeOps_append,
      mergeOps_subset_nil A.patches (seenExt [] A.patches)
        (fun p hp => (mem_seenExt A.patches [] (opKey p)).mpr
          (Or.inr (List.mem_map_of_mem opKey hp))),
      List.append_nil]

/-- Two merge ops sharing the dedup key `(part, operation, match)` while
differing in replacement. -/
def c7OpA : PatchOp :=
  { id := "a", part := "xl/styles.xml", operation := "literal_replace",
    matchVal := some "x", replacement := some "1" }

/-- Same key as `c7OpA`, different replacement. -/
def c7OpB : PatchOp :=
  { id := "b", part := "xl/styles.xml", operation := "literal_replace",
    matchVal := some "x", replacement := some "2" }

/-- A recipe holding only `c7OpA`. -/
def c7RecA : PatchRecipe := { sourceFile := "cand.xlsx", patches := [c7OpA] }

/-- A recipe holding only `c7OpB`. -/
def c7RecB : PatchRecipe := { sourceFile := "cand.xlsx", patches := [c7OpB] }

/-- A recipe whose single op has a key distinct from `c7OpA`'s. -/
def c7RecC : PatchRecipe :=
  { sourceFile := "cand.xlsx",
    patches := [{ id := "c", part := "xl/calcChain.xml", operation := "delete_part" }] }

/-- Counterexample to C7 as stated: merging A then B keeps A's op while
merging B then A keeps B's, so the merged op sets differ when two ops share
a dedup key but disagree elsewhere. -/
theorem mergeRecipes_order_counterexample :
    c7OpA ∈ (mergeRecipes [c7RecA, c7RecB]).patches ∧
      c7OpA ∉ (mergeRecipes [c7RecB, c7RecA]).patches := by decide

/-- Witness for C7 (amended) at concrete recipes with disjoint keys. -/
theorem mergeRecipes_order_and_idem_witness :
    (∀ p, p ∈ (mergeRecipes [c7RecA, c7RecC]).patches ↔
        p ∈ (mergeRecipes [c7RecC, c7RecA]).patches) ∧
      (mergeRecipes [c7RecA, c7RecA]).patches = (mergeRecipes [c7RecA]).patches :=
  ⟨(mergeRecipes_order_and_idem c7RecA c7RecC).2.1 (by decide),
   (mergeRecipes_order_and_idem c7RecA c7RecA).2.2⟩

/-! ## Claim C2: determinism of the written archive bytes -/

/-- A one-entry archive for the determinism check. -/
def c2Arch : List (String × List Nat) := [("xl/a.xml", [65])]

/-- C2 evidence: the entry map apply_recipe writes is a pure function of the
input and recipe (here the input itself), yet the raw bytes of the written
file depend on the wall clock: the same input and recipe at two different
clock readings produce different file prefixes, because `writestr` stamps
`time.localtime()` into every entry's local header. -/
theorem applyRecipe_output_bytes_clock_dependent :
    (applyRecipe c2Arch []).output = c2Arch ∧
      outputFilePrefix c2Arch [] 0 0 ≠ outputFilePrefix c2Arch [] 1 0 := by decide

/-! ## Claim C8: the styles dxfs-count gate -/

theorem checkStylesDxf_amended (arch : List (String × List Char))
    (styles : String × List Char) (n : Nat)
    (hfind : arch.find? (fun e => e.1 = "xl/styles.xml") = some styles)
    (hdecl : dxfsDeclared styles.2 = some n) :
    checkStylesDxf arch = [] ↔
      (n = countDxf styles.2 ∧
        ∀ sh ∈ sheetsOf arch, ∀ d ∈ cfRuleDxfIds sh.2, d < countDxf styles.2) := by
  simp only [checkStylesDxf, hfind, hdecl]
  rw [List.append_eq_nil]
  constructor
  · rintro ⟨h1, h2⟩
    constructor
    · by_contra hne
      simp [hne] at h1
    · intro sh hsh d hd
      rw [List.flatMap_eq_nil_iff] at h2
      have h3 := h2 sh hsh
      rw [List.filterMap_eq_nil_iff] at h3
      have h4 := h3 d hd
      by_contra hlt
      simp [hlt] at h4
  · rintro ⟨h1, h2⟩
    constructor
    · simp [h1]
    · rw [List.flatMap_eq_nil_iff]
      intro sh hsh
      rw [List.filterMap_eq_nil_iff]
      intro d hd
      simp [h2 sh hsh d hd]

/-- Decoded text of the styles part used for C8: declared count 1, one
`<dxf\b` element, but two raw `<dxf` substrings (the `<dxfs` tag itself is
one). -/
def c8Style : List Char := "<dxfs count=\"1\"><dxf/></dxfs>".data

/-- One-part archive around `c8Style`. -/
def c8Arch : List (String × List Char) := [("xl/styles.xml", c8Style)]

set_option maxRecDepth 100000 in
/-- Counterexample to C8 as stated: the gate emits zero findings on
`c8Arch`, yet the declared count (1) differs from the number of `<dxf`
substrings (2, counting the one inside `<dxfs`): the claimed equivalence
fails because the code counts `<dxf` at a word boundary. -/
theorem checkStylesDxf_substr_counterexample :
    ¬ (checkStylesDxf c8Arch = [] ↔
        dxfsDeclared c8Style = some (claimSubstrCount c8Style "<dxf".data)) := by decide

set_option maxRecDepth 100000 in
/-- Witness for C8 (amended) at the concrete styles part. -/
theorem checkStylesDxf_amended_witness :
    checkStylesDxf c8Arch = [] ↔
      (1 = countDxf c8Style ∧
        ∀ sh ∈ sheetsOf c8Arch, ∀ d ∈ cfRuleDxfIds sh.2, d < countDxf c8Style) :=
  checkStylesDxf_amended c8Arch ("xl/styles.xml", c8Style) 1 (by decide) (by decide)

/-! ## Claim C9: the stop-ship token gate on `_xlfn.AGGREGATE(` -/

theorem matchesAtC_append (s a b : List Char) (i : Nat)
    (h : matchesAtC s (a ++ b) i = true) :
    matchesAtC s a i = true ∧ matchesAtC s b (i + a.length) = true := by
  simp only [matchesAtC, decide_eq_true_eq] at h ⊢
  have hfull : (s.drop i).take (a.length + b.length) = a ++ b := by
    simpa [List.length_append] using h
  constructor
  · calc (s.drop i).take a.length
        = ((s.drop i).take (a.length + b.length)).take a.length := by
          rw [List.take_take]
          congr 1
          omega
      _ = (a ++ b).take a.length := by rw [hfull]
      _ = a := List.take_left a b
  · have hdd : (s.drop i).drop a.length = s.drop (i + a.length) := by
      rw [List.drop_drop]
    calc (s.drop (i + a.length)).take b.length
        = ((s.drop i).drop a.length).take b.length := by rw [hdd]
      _ = ((s.drop i).take (a.length + b.length)).drop a.length := by
          rw [List.drop_take]
          try (congr 1; omega)
      _ = (a ++ b).drop a.length := by rw [hfull]
      _ = b := List.drop_left a b

theorem matchesAtC_le (s pat : List Char) (i : Nat) (hne : pat ≠ [])
    (h : matchesAtC s pat i = true) : i + pat.length ≤ s.length := by
  simp only [matchesAtC, decide_eq_true_eq] at h
  have hl := congrArg List.length h
  simp only [List.length_take, List.length_drop] at hl
  have hpos : 0 < pat.length := List.length_pos.mpr hne
  omega

theorem containsSub_append (g a b : List Char) (hb : b ≠ [])
    (h : containsSub g (a ++ b) = true) :
    containsSub g a = true ∧ containsSub g b = true := by
  simp only [containsSub, List.any_eq_true, List.mem_range] at h ⊢
  obtain ⟨i, hi, hm⟩ := h
  obtain ⟨hma, hmb⟩ := matchesAtC_append g a b i hm
  refine ⟨⟨i, hi, hma⟩, ⟨i + a.length, ?_, hmb⟩⟩
  have := matchesAtC_le g b (i + a.length) hb hmb
  omega

/-- C9 (amended): a formula whose text contains `_xlfn.AGGREGATE(` yields a
stop-ship finding with token `_xlfn.` and one with token `AGGREGATE(`, and
it yields exactly those two findings when it contains no other sentinel
token; the gate emits one finding per (formula, token) pair with the token
present, so further sentinels in the same formula add further findings. -/
theorem checkStopship_aggregate (arch : List (String × List Char)) (nm : String)
    (s g : List Char) (hsheet : (nm, s) ∈ sheetsOf arch) (hg : g ∈ formulasOf s)
    (hagg : containsSub g "_xlfn.AGGREGATE(".data = true) :
    (⟨nm, "_xlfn.".data, g.take 120⟩ : StopFinding) ∈ checkStopship arch ∧
    (⟨nm, "AGGREGATE(".data, g.take 120⟩ : StopFinding) ∈ checkStopship arch ∧
    (containsSub g "_xludf.".data = false → containsSub g "_xlpm.".data = false →
        formulaFindings nm g =
          [⟨nm, "_xlfn.".data, g.take 120⟩, ⟨nm, "AGGREGATE(".data, g.take 120⟩]) := by
  have hsplit : "_xlfn.AGGREGATE(".data = "_xlfn.".data ++ "AGGREGATE(".data := by decide
  rw [hsplit] at hagg
  obtain ⟨hf, ha⟩ := containsSub_append g _ _ (by decide) hagg
  have hmem : ∀ fnd ∈ formulaFindings nm g, fnd ∈ checkStopship arch := by
    intro fnd hf2
    exact List.mem_flatMap.mpr ⟨(nm, s), hsheet, List.mem_flatMap.mpr ⟨g, hg, hf2⟩⟩
  refine ⟨hmem _ ?_, hmem _ ?_, ?_⟩
  · exact List.mem_filterMap.mpr ⟨"_xlfn.".data, by decide, by simp [hf]⟩
  · exact List.mem_filterMap.mpr ⟨"AGGREGATE(".data, by decide, by simp [ha]⟩
  · intro hu hp
    simp [formulaFindings, stopshipTokens, hf, ha, hu, hp]

/-- Worksheet text whose single formula holds two extra sentinels beyond
the `_xlfn.` / `AGGREGATE(` pair. -/
def c9Sheet : List Char := "<f>_xlpm.p_xlfn.AGGREGATE(</f>".data

/-- One-sheet archive around `c9Sheet`. -/
def c9Arch : List (String × List Char) := [("xl/worksheets/sheet1.xml", c9Sheet)]

set_option maxRecDepth 100000 in
/-- Counterexample to C9 as stated: this formula contains
`_xlfn.AGGREGATE(` yet the gate emits three findings for it, not exactly
two, because `_xlpm.` also occurs. -/
theorem checkStopship_three_findings :
    formulasOf c9Sheet = ["_xlpm.p_xlfn.AGGREGATE(".data] ∧
      containsSub "_xlpm.p_xlfn.AGGREGATE(".data "_xlfn.AGGREGATE(".data = true ∧
      (checkStopship c9Arch).length = 3 := by decide

/-- Worksheet text with a clean `_xlfn.AGGREGATE(` formula. -/
def c9CleanSheet : List Char := "<f>=_xlfn.AGGREGATE(1)</f>".data

/-- One-sheet archive around `c9CleanSheet`. -/
def c9CleanArch : List (String × List Char) :=
  [("xl/worksheets/sheet1.xml", c9CleanSheet)]

set_option maxRecDepth 100000 in
/-- Witness for C9 (amended): the clean formula yields exactly the two
findings. -/
theorem checkStopship_aggregate_witness :
    (⟨"xl/worksheets/sheet1.xml", "_xlfn.".data,
        ("=_xlfn.AGGREGATE(1)".data).take 120⟩ : StopFinding) ∈ checkStopship c9CleanArch ∧
      formulaFindings "xl/worksheets/sheet1.xml" "=_xlfn.AGGREGATE(1)".data =
        [⟨"xl/worksheets/sheet1.xml", "_xlfn.".data, ("=_xlfn.AGGREGATE(1)".data).take 120⟩,
         ⟨"xl/worksheets/sheet1.xml", "AGGREGATE(".data, ("=_xlfn.AGGREGATE(1)".data).take 120⟩] := by
  have h := checkStopship_aggregate c9CleanArch "xl/worksheets/sheet1.xml" c9CleanSheet
    ("=_xlfn.AGGREGATE(1)".data) (by decide) (by decide) (by decide)
  exact ⟨h.1, h.2.2 (by decide) (by decide)⟩

end Triage
